import Mathlib

/-!
Shallow embedding of the camera-OCR/LLM recognition pipeline core:
`src/agents/debounce.py` (stability voting), `src/agents/agent_e.py`
(LRU+TTL cache and throttler), `src/agents/llm_correct.py` (correction
wrapper), `src/worker.py` (circuit breaker and pipeline loop) and the
side-channel slots of `src/shared_state.py`.

Modelling conventions:
 * Python floats that carry wall-clock times, similarities and
   thresholds are modelled as rationals; comparisons on them are exact.
 * `time.monotonic()` readings are passed in explicitly as parameters.
   The multiple clock reads inside one loop iteration (cache get,
   breaker, throttler) are collapsed to a single `now` per iteration.
 * External calls (the OCR engine, the LLM backend, the wall clock) are
   oracle inputs; logging, metrics, TTS and the vision cross-validation
   side effects do not touch pipeline state and are not modelled.
 * Python `str.strip`/`str.split` whitespace handling is modelled over
   the ASCII whitespace characters recognised by `Char.isWhitespace`.
-/

/-- Character-level whitespace test used to model Python `str.strip()` and
`str.split()` (faithful for ASCII whitespace). -/
def pyIsSpace (c : Char) : Bool := c.isWhitespace

/-- Model of Python `s.strip()`: drop leading and trailing whitespace. -/
def pyStrip (s : String) : String :=
  String.mk (((s.toList.dropWhile pyIsSpace).reverse.dropWhile pyIsSpace).reverse)

/-- Model of Python `s.rstrip()`: drop trailing whitespace. -/
def pyRStrip (s : String) : String :=
  String.mk ((s.toList.reverse.dropWhile pyIsSpace).reverse)

/-- Helper of the model of Python `s.split()`: split a character list on
whitespace runs, discarding empty pieces.  `acc` holds the characters of
the word currently being read, in reverse order. -/
def pySplitAux : List Char → List Char → List (List Char)
  | [], acc => if acc.isEmpty then [] else [acc.reverse]
  | c :: cs, acc =>
    if pyIsSpace c then
      if acc.isEmpty then pySplitAux cs [] else acc.reverse :: pySplitAux cs []
    else pySplitAux cs (c :: acc)

/-- Model of Python `s.split()` with no arguments. -/
def pySplit (s : String) : List String :=
  (pySplitAux s.toList []).map String.mk

/-- `_normalize_for_vote` from `src/agents/debounce.py`:
`" ".join((text or "").strip().split())`. -/
def normalize_for_vote (text : String) : String :=
  String.intercalate " " (pySplit (pyStrip text))

/-- `normalize_text` from `src/agents/agent_e.py` (same body as
`_normalize_for_vote`). -/
def normalize_text (text : String) : String :=
  String.intercalate " " (pySplit (pyStrip text))

/-!  `difflib.SequenceMatcher(None, a, b).ratio()`, modelled for the
no-junk case.  `difflib`'s autojunk heuristic only activates when the
second string has at least 200 characters; every theorem below stays far
below that bound, where this model is faithful. -/

/-- Length of the common run of equal characters at the heads of two
lists (the size of a matching block anchored at given positions). -/
def matchLen : List Char → List Char → Nat
  | x :: xs, y :: ys => if x = y then matchLen xs ys + 1 else 0
  | _, _ => 0

/-- One candidate update of `find_longest_match`'s running best:
strictly longer matches win, so the earliest (i, j) in scan order is
kept among blocks of maximal size, exactly as in `difflib`. -/
def fbUpdate (a b : List Char) (best : Nat × Nat × Nat) (ij : Nat × Nat) :
    Nat × Nat × Nat :=
  let k := matchLen (a.drop ij.1) (b.drop ij.2)
  if best.2.2 < k then (ij.1, ij.2, k) else best

/-- Model of `SequenceMatcher.find_longest_match` over whole lists (no
junk): the longest matching block, earliest start in `a`, then earliest
start in `b`.  Returns `(i, j, size)`. -/
def findBest (a b : List Char) : Nat × Nat × Nat :=
  (((List.range a.length).flatMap fun i =>
      (List.range b.length).map fun j => (i, j))).foldl (fbUpdate a b) (0, 0, 0)

/-- Total size of all matching blocks (`get_matching_blocks`): recursive
splitting around the longest match, as `difflib` does.  Structural
recursion on a fuel counter; each split strictly shrinks the first
list, so fuel `a.length` is always sufficient (`matchTotal` below). -/
def matchTotalFuel : Nat → List Char → List Char → Nat
  | 0, _, _ => 0
  | fuel + 1, a, b =>
    let t := findBest a b
    if 0 < t.2.2 then
      matchTotalFuel fuel (a.take t.1) (b.take t.2.1) + t.2.2 +
        matchTotalFuel fuel (a.drop (t.1 + t.2.2)) (b.drop (t.2.1 + t.2.2))
    else 0

/-- Total matching size with sufficient fuel. -/
def matchTotal (a b : List Char) : Nat := matchTotalFuel a.length a b

/-- `SequenceMatcher.ratio()`: `2*M/T`, and 1 when both inputs are
empty. -/
def smRatio (a b : List Char) : ℚ :=
  if a.length + b.length = 0 then 1
  else (2 * matchTotal a b : ℚ) / (a.length + b.length : ℚ)

/-- `text_similarity` from `src/agents/debounce.py`. -/
def text_similarity (a b : String) : ℚ :=
  let aN := normalize_for_vote a
  let bN := normalize_for_vote b
  if aN = "" ∧ bN = "" then 1
  else if aN = "" ∨ bN = "" then 0
  else smRatio aN.toList bN.toList

/-!  `OCRDebouncer` from `src/agents/debounce.py`.  The deque is a list
with the oldest sample first; `q[-1]` is `List.getLastD q ""`. -/

/-- Number of occurrences of `v` in the window (a `Counter` entry). -/
def countOcc (q : List String) (v : String) : Nat := q.count v

/-- Scan modelling `Counter(q).most_common(1)`: the first-encountered
value of maximal multiplicity (heapq-based `most_common` is stable, so
ties keep Counter insertion order, which is first-occurrence order). -/
def mostCommonAux (q : List String) : List String → Option (String × Nat) →
    Option (String × Nat)
  | [], acc => acc
  | x :: xs, acc =>
    match acc with
    | none => mostCommonAux q xs (some (x, countOcc q x))
    | some (v, c) =>
      if c < countOcc q x then mostCommonAux q xs (some (x, countOcc q x))
      else mostCommonAux q xs (some (v, c))

/-- `Counter(q).most_common(1)` head, or `none` on an empty window. -/
def mostCommon1 (q : List String) : Option (String × Nat) :=
  mostCommonAux q q none

/-- Similarity-mode cluster size of a candidate: how many window members
have `text_similarity candidate t >= threshold`. -/
def clusterCount (thr : ℚ) (q : List String) (cand : String) : Nat :=
  (q.filter fun t => decide (thr ≤ text_similarity cand t)).length

/-- The similarity-vote loop of `get_stable`: scan candidates in window
order, skipping already-seen ones, keeping the first representative
whose cluster size meets `min_votes` and strictly beats the best so
far. -/
def simBestAux (thr : ℚ) (minVotes : Nat) (q : List String) :
    List String → List String → Nat → Option String → Option String
  | [], _, _, best => best
  | c :: rest, seen, bestCount, best =>
    if c ∈ seen then simBestAux thr minVotes q rest seen bestCount best
    else
      let cnt := clusterCount thr q c
      if minVotes ≤ cnt ∧ bestCount < cnt then
        simBestAux thr minVotes q rest (c :: seen) cnt (some c)
      else simBestAux thr minVotes q rest (c :: seen) bestCount best

/-- Result of the similarity-vote loop started as in the source. -/
def simBest (thr : ℚ) (minVotes : Nat) (q : List String) : Option String :=
  simBestAux thr minVotes q q [] 0 none

/-- Largest cluster size over all candidates (the `is_stable` loop in
similarity mode, which does not dedupe candidates). -/
def maxClusterCount (thr : ℚ) (q : List String) : Nat :=
  (q.map (clusterCount thr q)).foldl max 0

/-- State of `OCRDebouncer`: configuration plus the ring buffer of
normalized samples, oldest first. -/
structure OCRDebouncer where
  historyLen : Nat
  minVotes : Nat
  similarityVote : ℚ
  q : List String
deriving Repr, DecidableEq

/-- `OCRDebouncer.__init__` with its clamping (`max(1, ...)` on the
sizes, similarity clamped into [0, 1]). -/
def OCRDebouncer.init (historyLen minVotes : Nat) (similarityVote : ℚ) :
    OCRDebouncer :=
  { historyLen := max 1 historyLen
    minVotes := max 1 minVotes
    similarityVote := max 0 (min 1 similarityVote)
    q := [] }

/-- `OCRDebouncer.add`: normalize and push, evicting the oldest beyond
capacity (deque maxlen semantics). -/
def OCRDebouncer.add (d : OCRDebouncer) (rawText : String) : OCRDebouncer :=
  let q' := d.q ++ [normalize_for_vote rawText]
  { d with q := q'.drop (q'.length - d.historyLen) }

/-- `OCRDebouncer.get_stable`. -/
def OCRDebouncer.get_stable (d : OCRDebouncer) : String :=
  if d.q.isEmpty then ""
  else if d.similarityVote ≤ 0 then
    match mostCommon1 d.q with
    | some (v, c) => if d.minVotes ≤ c then v else d.q.getLastD ""
    | none => d.q.getLastD ""
  else
    match simBest d.similarityVote d.minVotes d.q with
    | some v => v
    | none => d.q.getLastD ""

/-- `OCRDebouncer.is_stable`. -/
def OCRDebouncer.is_stable (d : OCRDebouncer) : Bool :=
  if d.q.isEmpty then false
  else if d.similarityVote ≤ 0 then
    match mostCommon1 d.q with
    | some (_, c) => decide (d.minVotes ≤ c)
    | none => false
  else decide (d.minVotes ≤ maxClusterCount d.similarityVote d.q)

/-- `OCRDebouncer.is_soft_stable`: the latest sample is similar enough
to the consensus. -/
def OCRDebouncer.is_soft_stable (d : OCRDebouncer) (thr : ℚ) : Bool :=
  if d.q.isEmpty then false
  else decide (thr ≤ text_similarity d.get_stable (d.q.getLastD ""))

/-!  `LLMCache` and `LLMThrottler` from `src/agents/agent_e.py`.  The
`OrderedDict` is a list of key/entry pairs, oldest (least recently used)
first; keys are unique because every insertion goes through `put`. -/

/-- A cache entry (the dict stored by `LLMCache.put`). -/
structure CacheEntry where
  corrected : String
  confidence : Option ℚ
  languageHint : Option String
  llmMs : ℚ
  ts : ℚ
deriving Repr, DecidableEq

/-- `LLMCache._make_key`: normalized text plus language hint (Python
`lang_hint or "auto"` treats both `None` and `""` as missing). -/
def makeKey (text : String) (langHint : Option String) : String :=
  normalize_text text ++ "||" ++
    (match langHint with
     | some h => if h = "" then "auto" else h
     | none => "auto")

/-- Association-list lookup mirroring `key in self._data` plus
`self._data[key]`. -/
def lookupKey (data : List (String × CacheEntry)) (k : String) :
    Option CacheEntry :=
  (data.find? fun p => p.1 == k).map (·.2)

/-- `OrderedDict.pop(key)`: remove the (unique) binding of `k`. -/
def eraseKey (data : List (String × CacheEntry)) (k : String) :
    List (String × CacheEntry) :=
  data.filter fun p => p.1 != k

/-- `LLMCache` state. -/
structure LLMCache where
  maxSize : Nat
  ttl : ℚ
  data : List (String × CacheEntry)
deriving Repr, DecidableEq

/-- `LLMCache.__init__` with its clamping (`max(1, max_size)`,
`max(1.0, ttl_sec)`). -/
def LLMCache.init (maxSize : Nat) (ttl : ℚ) : LLMCache :=
  { maxSize := max 1 maxSize, ttl := max 1 ttl, data := [] }

/-- `LLMCache.get` at clock reading `now`: pop the entry, drop it when
its age exceeds TTL, otherwise reinsert it at the most-recently-used end
and return it. -/
def LLMCache.get (c : LLMCache) (now : ℚ) (text : String)
    (langHint : Option String) : Option CacheEntry × LLMCache :=
  let k := makeKey text langHint
  match lookupKey c.data k with
  | none => (none, c)
  | some e =>
    let data' := eraseKey c.data k
    if c.ttl < now - e.ts then (none, { c with data := data' })
    else (some e, { c with data := data' ++ [(k, e)] })

/-- `LLMCache.put` at clock reading `now`: insert/overwrite at the
most-recently-used end, then evict from the least-recently-used end
while over capacity. -/
def LLMCache.put (c : LLMCache) (now : ℚ) (text : String)
    (langHint : Option String) (corrected : String) (confidence : Option ℚ)
    (languageHint : Option String) (llmMs : ℚ) : LLMCache :=
  let k := makeKey text langHint
  let e : CacheEntry :=
    { corrected := corrected, confidence := confidence
      languageHint := languageHint, llmMs := llmMs, ts := now }
  let data' := eraseKey c.data k ++ [(k, e)]
  { c with data := data'.drop (data'.length - c.maxSize) }

/-- `LLMThrottler` state (`_interval` is `max(0, int(min_interval_ms))`;
`_last_call_ts_ms` starts at 0). -/
structure LLMThrottler where
  interval : Nat
  lastCallTsMs : ℚ
deriving Repr, DecidableEq

/-- `LLMThrottler.__init__`. -/
def LLMThrottler.init (minIntervalMs : Nat) : LLMThrottler :=
  { interval := minIntervalMs, lastCallTsMs := 0 }

/-- `LLMThrottler.can_call` at clock reading `nowMs` (milliseconds):
true records the timestamp, false has no side effect. -/
def LLMThrottler.can_call (t : LLMThrottler) (nowMs : ℚ) :
    Bool × LLMThrottler :=
  if t.interval ≤ 0 then (true, t)
  else if (t.interval : ℚ) ≤ nowMs - t.lastCallTsMs then
    (true, { t with lastCallTsMs := nowMs })
  else (false, t)

/-!  `_CircuitBreaker` from `src/worker.py` (the lock only guards the
fields; the state machine itself is sequential). -/

/-- `_CircuitBreaker` state. -/
structure CircuitBreaker where
  failureThreshold : Nat
  cooldownSec : ℚ
  consecutiveFailures : Nat
  lastFailureTime : ℚ
deriving Repr, DecidableEq

/-- `_CircuitBreaker.__init__`. -/
def CircuitBreaker.init (failureThreshold : Nat) (cooldownSec : ℚ) :
    CircuitBreaker :=
  { failureThreshold := failureThreshold, cooldownSec := cooldownSec
    consecutiveFailures := 0, lastFailureTime := 0 }

/-- `record_success`: reset the consecutive-failure counter. -/
def CircuitBreaker.record_success (b : CircuitBreaker) : CircuitBreaker :=
  { b with consecutiveFailures := 0 }

/-- `record_failure` at clock reading `now`. -/
def CircuitBreaker.record_failure (b : CircuitBreaker) (now : ℚ) :
    CircuitBreaker :=
  { b with consecutiveFailures := b.consecutiveFailures + 1
           lastFailureTime := now }

/-- `is_open` at clock reading `now`. -/
def CircuitBreaker.is_open (b : CircuitBreaker) (now : ℚ) : Bool :=
  if b.consecutiveFailures < b.failureThreshold then false
  else decide (now - b.lastFailureTime < b.cooldownSec)

/-!  The side-channel slots of `SharedState` (`src/shared_state.py`):
the pending user command (`set_pending_user_command` /
`get_and_clear_pending_command`) and the pending chat message
(`set_pending_chat` / `get_and_clear_pending_chat`).  Only the slot
fields are modelled; the mutex makes each method atomic. -/

/-- The two best-effort single slots of `SharedState`. -/
structure SlotState where
  pendingCommand : Option String
  contentForCommand : String
  pendingChatMessage : Option String
deriving Repr, DecidableEq

/-- `SharedState.__init__` slot fields. -/
def SlotState.init : SlotState :=
  { pendingCommand := none, contentForCommand := "", pendingChatMessage := none }

/-- `set_pending_user_command`: overwrite the slot (content is
stripped). -/
def SlotState.set_pending_user_command (s : SlotState) (cmd content : String) :
    SlotState :=
  { s with pendingCommand := some cmd, contentForCommand := pyStrip content }

/-- `get_and_clear_pending_command`: take the slot and clear it. -/
def SlotState.get_and_clear_pending_command (s : SlotState) :
    (Option String × String) × SlotState :=
  ((s.pendingCommand, s.contentForCommand),
   { s with pendingCommand := none, contentForCommand := "" })

/-- `set_pending_chat`: store the stripped message, empty becoming
`None`. -/
def SlotState.set_pending_chat (s : SlotState) (message : String) : SlotState :=
  { s with pendingChatMessage :=
      if pyStrip message = "" then none else some (pyStrip message) }

/-- `get_and_clear_pending_chat`: take the message slot and clear it. -/
def SlotState.get_and_clear_pending_chat (s : SlotState) :
    Option String × SlotState :=
  (s.pendingChatMessage, { s with pendingChatMessage := none })

/-!  `correct_with_llm` from `src/agents/llm_correct.py`.  The network
call `_call_once` (OpenAI client) is an oracle: each attempt either
yields a parsed JSON object, a parse failure, or raises.  Wall-clock
elapsed time is likewise an oracle value.  The instrumented function
also returns how many backend calls were made. -/

/-- A JSON value, as far as `_validate_and_extract` inspects it. -/
inductive JValue where
  | jstr (s : String)
  | jnum (q : ℚ)
  | jbool (b : Bool)
  | jnull
  | jarr (xs : List JValue)
  | jobj (fields : List (String × JValue))
deriving Repr

/-- `data.get(k)` on a parsed JSON object. -/
def jlookup (data : List (String × JValue)) (k : String) : Option JValue :=
  (data.find? fun p => p.1 == k).map (·.2)

/-- `LLMResult` dataclass. -/
structure LLMResult where
  correctedText : String
  success : Bool
  timeMs : ℚ
  errorMsg : Option String := none
  original : Option String := none
  changes : Option (List JValue) := none
  confidence : Option ℚ := none
  languageHint : Option String := none
deriving Repr

/-- `_validate_and_extract`: returns
`(corrected, confidence, language_hint, changes)`, falling back to the
input text when `corrected` is missing or not a string.  A JSON boolean
passes Python's `isinstance(confidence, (int, float))` check because
`bool` subclasses `int`. -/
def validate_and_extract (data : List (String × JValue)) (inputText : String) :
    String × Option ℚ × Option String × Option (List JValue) :=
  match jlookup data "corrected" with
  | some (JValue.jstr c) =>
    let confidence :=
      match jlookup data "confidence" with
      | some (JValue.jnum q) => some q
      | some (JValue.jbool b) => some (if b then (1 : ℚ) else 0)
      | _ => none
    let languageHint :=
      match jlookup data "language_hint" with
      | some (JValue.jstr s) => some s
      | _ => none
    let changes :=
      match jlookup data "changes" with
      | some (JValue.jarr xs) => some xs
      | _ => none
    (pyStrip c, confidence, languageHint, changes)
  | _ => (inputText, none, none, none)

/-- `_truncate_input`. -/
def truncate_input (text : String) (maxChars : Int) : String :=
  if maxChars ≤ 0 ∨ (text.length : Int) ≤ maxChars then text
  else pyRStrip (String.mk (text.toList.take maxChars.toNat)) ++ "..."

/-- Outcome of one `_call_once` invocation, as seen by the retry loop. -/
inductive CallOutcome where
  | parsed (obj : List (String × JValue))
  | parseFailed
  | exn (e : String)
deriving Repr

/-- Oracle environment for `correct_with_llm`: whether client creation
raises, the outcome of the i-th backend attempt, and the measured
elapsed milliseconds at return time. -/
structure LLMEnv where
  clientErr : Option String
  call : Nat → CallOutcome
  elapsedMs : ℚ

/-- The all-attempts-failed fallback return (`last_error or "JSON parse
failed after retries"`; Python `or` also replaces an empty string). -/
def llmFailResult (env : LLMEnv) (text : String) (lastError : Option String) :
    LLMResult :=
  { correctedText := text, success := false, timeMs := env.elapsedMs
    errorMsg := some
      (match lastError with
       | some s => if s = "" then "JSON parse failed after retries" else s
       | none => "JSON parse failed after retries") }

/-- The retry loop of `correct_with_llm` (`for attempt in
range(retries+1)`), instrumented with the number of backend calls made
so far.  `i` is the attempt index, `remaining` the attempts left after
this one. -/
def attemptLoop (env : LLMEnv) (text truncated : String) :
    Nat → Nat → Option String → Nat → LLMResult × Nat
  | i, remaining, _lastError, calls =>
    match env.call i with
    | CallOutcome.parsed obj =>
      let r := validate_and_extract obj text
      ({ correctedText := r.1, success := true, timeMs := env.elapsedMs
         original := if text = truncated then none else some text
         changes := r.2.2.2, confidence := r.2.1
         languageHint := r.2.2.1 }, calls + 1)
    | CallOutcome.parseFailed =>
      let le := some "JSON parse failed: no valid object in response"
      match remaining with
      | 0 => (llmFailResult env text le, calls + 1)
      | r + 1 => attemptLoop env text truncated (i + 1) r le (calls + 1)
    | CallOutcome.exn e =>
      let le := some e
      match remaining with
      | 0 => (llmFailResult env text le, calls + 1)
      | r + 1 => attemptLoop env text truncated (i + 1) r le (calls + 1)

/-- Configuration consumed by `correct_with_llm`. -/
structure LLMCorrCfg where
  inputMaxChars : Int
  retryCount : Nat

/-- `correct_with_llm`, instrumented with the backend call count.
Empty/whitespace-only input returns immediately (`raw_text or ""` equals
`raw_text` for every string); client-creation failure is caught by the
outer handler and degrades to the original text. -/
def correct_with_llm (cfg : LLMCorrCfg) (env : LLMEnv) (rawText : String) :
    LLMResult × Nat :=
  let text := pyStrip rawText
  if text = "" then
    ({ correctedText := rawText, success := true, timeMs := 0 }, 0)
  else
    match env.clientErr with
    | some e =>
      ({ correctedText := text, success := false, timeMs := env.elapsedMs
         errorMsg := some e }, 0)
    | none =>
      let truncated := truncate_input text cfg.inputMaxChars
      attemptLoop env text truncated 0 cfg.retryCount none 0

/-!  The pipeline loop body from `src/worker.py` (`_pipeline_loop`,
lines 242-491).  One iteration is a pure step function over the loop's
mutable state, fed by oracle inputs (frame availability, the OCR
outcome after its try/except, the completion and result of the pending
LLM future, and the clock).  The user-command / voice-assistant
sections (lines 107-240) only read the side-channel slots and spawn
independent daemon threads; they do not touch any of the pipeline
state modelled here.  Outputs are the `set_latest_result` publications
(in order) and the number of `executor.submit(_run_llm_safe, ...)`
dispatches. -/

/-- The `pending_llm` tuple minus the future itself:
`(stable_text, conf, ocr_ms, display_raw, err_msg)`. -/
structure PendingInfo where
  stable : String
  conf : ℚ
  ocrMs : ℚ
  displayRaw : String
  errMsg : Option String
deriving Repr, DecidableEq

/-- What a resolved LLM future yields:
`(corrected_text, time_ms, success, error_msg)`. -/
structure LLMOutcome where
  corrected : String
  llmMs : ℚ
  ok : Bool
  err : Option String
deriving Repr, DecidableEq

/-- Arguments of one `state.set_latest_result(...)` call. -/
structure PubResult where
  rawOcr : String
  corrected : String
  confidence : ℚ
  ocrTimeMs : ℚ
  llmTimeMs : ℚ
  ocrOk : Bool
  llmOk : Bool
  errorMsg : Option String
  debouncedOcr : String
deriving Repr, DecidableEq

/-- The mutable state of `_pipeline_loop` across iterations
(`last_llm_lang_hint` is declared and read but never reassigned in the
source, so it stays `None`). -/
structure PipelineState where
  lastLlmLangHint : Option String
  lastSentText : Option String
  lastCorrected : Option String
  pending : Option PendingInfo
  breaker : CircuitBreaker
  debouncer : OCRDebouncer
  cache : LLMCache
  throttler : LLMThrottler

/-- Configuration read inside the loop body. -/
structure PipeConfig where
  softStableEnabled : Bool
  softStableSimilarity : ℚ

/-- Oracle inputs of one iteration. -/
structure IterInput where
  pendingDone : Bool
  pendingResult : Except String LLMOutcome
  frame : Option Unit
  ocrRaw : String
  ocrConf : ℚ
  ocrMs : ℚ
  ocrOk : Bool
  ocrErr : Option String
  now : ℚ

/-- Result of one iteration. -/
structure StepOut where
  state : PipelineState
  published : List PubResult
  dispatched : Nat

/-- `" ".join(filter(None, [pending_err, llm_err])) or None`. -/
def joinErrs (a b : Option String) : Option String :=
  let parts := ([a, b].filterMap id).filter fun s => s != ""
  let joined := String.intercalate " " parts
  if joined = "" then none else some joined

/-- Lines 243-293: drain a completed pending LLM future — on success
reset the breaker, remember the sent/corrected pair and cache the
correction (unless the stable text is blank); on failure record a
breaker failure; either way publish the merged result and clear the
pending slot.  An unfinished future is left untouched. -/
def drainPhase (s : PipelineState) (inp : IterInput) :
    PipelineState × List PubResult :=
  match s.pending with
  | none => (s, [])
  | some p =>
    if inp.pendingDone = false then (s, [])
    else
      let out : LLMOutcome :=
        match inp.pendingResult with
        | Except.ok r => r
        | Except.error e => ⟨p.stable, 0, false, some e⟩
      let s1 :=
        if out.ok then
          { s with breaker := s.breaker.record_success
                   lastSentText := some p.stable
                   lastCorrected := some out.corrected
                   cache :=
                     if pyStrip p.stable = "" then s.cache
                     else s.cache.put inp.now p.stable s.lastLlmLangHint
                       out.corrected none none out.llmMs }
        else { s with breaker := s.breaker.record_failure inp.now }
      ({ s1 with pending := none },
       [⟨p.displayRaw, out.corrected, p.conf, p.ocrMs, out.llmMs, true, out.ok,
         joinErrs p.errMsg out.err, p.stable⟩])

/-- Lines 427-491: the gate — breaker, then throttle, then the
in-flight check, then the dispatch of exactly one asynchronous
correction call. -/
def gateStage (s : PipelineState) (now : ℚ) (stableText displayRaw : String)
    (conf ocrMs : ℚ) (errMsg : Option String) : StepOut :=
  if s.breaker.is_open now then
    ⟨s, [⟨displayRaw, stableText, conf, ocrMs, 0, true, false,
          some "LLM熔断中(降级返回原文)", stableText⟩], 0⟩
  else if (s.throttler.can_call (now * 1000)).1 = false then
    ⟨{ s with throttler := (s.throttler.can_call (now * 1000)).2 },
     [⟨displayRaw, stableText, conf, ocrMs, 0, true, true, none,
       stableText⟩], 0⟩
  else if s.pending.isSome then
    ⟨{ s with throttler := (s.throttler.can_call (now * 1000)).2 },
     [⟨displayRaw, stableText, conf, ocrMs, 0, true, true, none,
       stableText⟩], 0⟩
  else
    ⟨{ s with throttler := (s.throttler.can_call (now * 1000)).2
              lastSentText := some stableText
              pending := some ⟨stableText, conf, ocrMs, displayRaw, errMsg⟩ },
     [⟨displayRaw, stableText, conf, ocrMs, 0, true, true, errMsg,
       stableText⟩], 1⟩

/-- Lines 378-491: the correction stage of one iteration, entered once
a nonempty soft-stable text exists — cache check first (the source
checks the cache *before* the last-sent dedup), then the dedup check,
then the gate. -/
def correctionStage (s : PipelineState) (now : ℚ)
    (stableText displayRaw : String) (conf ocrMs : ℚ)
    (errMsg : Option String) : StepOut :=
  match (s.cache.get now stableText s.lastLlmLangHint).1 with
  | some e =>
    ⟨{ s with cache := (s.cache.get now stableText s.lastLlmLangHint).2 },
     [⟨displayRaw, e.corrected, conf, ocrMs, e.llmMs, true, true, errMsg,
       stableText⟩], 0⟩
  | none =>
    if s.lastSentText = some stableText ∧ s.lastCorrected.isSome then
      ⟨{ s with cache := (s.cache.get now stableText s.lastLlmLangHint).2 },
       [⟨displayRaw, s.lastCorrected.getD "", conf, ocrMs, 0, true, true,
         none, stableText⟩], 0⟩
    else gateStage { s with cache := (s.cache.get now stableText s.lastLlmLangHint).2 }
      now stableText displayRaw conf ocrMs errMsg

/-- The text fed to the debouncer this iteration
(`raw_text if ocr_ok else ""`). -/
def addText (inp : IterInput) : String := if inp.ocrOk then inp.ocrRaw else ""

/-- The loop state after feeding the debouncer (`debouncer.add(...)`). -/
def voteState (s1 : PipelineState) (inp : IterInput) : PipelineState :=
  { s1 with debouncer := s1.debouncer.add (addText inp) }

/-- `stable_text = debouncer.get_stable()` for this iteration. -/
def stableOf (s1 : PipelineState) (inp : IterInput) : String :=
  (s1.debouncer.add (addText inp)).get_stable

/-- `soft_stable`: `is_stable()`, or (when enabled) the current raw text
close enough to the stable text. -/
def softOf (cfg : PipeConfig) (s1 : PipelineState) (inp : IterInput) : Bool :=
  (s1.debouncer.add (addText inp)).is_stable ||
    (cfg.softStableEnabled && !(stableOf s1 inp == "") && !(inp.ocrRaw == "") &&
      decide (cfg.softStableSimilarity ≤
        text_similarity (stableOf s1 inp) inp.ocrRaw))

/-- `display_raw = raw_text if ocr_ok else (stable_text or "(OCR失败)")`. -/
def displayRawOf (s1 : PipelineState) (inp : IterInput) : String :=
  if inp.ocrOk then inp.ocrRaw
  else if stableOf s1 inp = "" then "(OCR失败)" else stableOf s1 inp

/-- Lines 313-491 after a frame was acquired: OCR (already resolved by
the oracle), debounce, the OCR-failure and not-yet-stable previews, and
the correction stage. -/
def frameStage (cfg : PipeConfig) (s1 : PipelineState) (inp : IterInput) :
    StepOut :=
  if inp.ocrOk = false then
    ⟨voteState s1 inp,
     [⟨displayRawOf s1 inp,
       (if stableOf s1 inp = "" then "(OCR失败)" else stableOf s1 inp), 0,
       inp.ocrMs, 0, false, true, inp.ocrErr, stableOf s1 inp⟩], 0⟩
  else if pyStrip (stableOf s1 inp) = "" || softOf cfg s1 inp = false then
    ⟨voteState s1 inp,
     [⟨displayRawOf s1 inp, inp.ocrRaw, inp.ocrConf, inp.ocrMs, 0, true,
       true, none, stableOf s1 inp⟩], 0⟩
  else
    correctionStage (voteState s1 inp) inp.now (stableOf s1 inp)
      (displayRawOf s1 inp) inp.ocrConf inp.ocrMs inp.ocrErr

/-- One full iteration of `_pipeline_loop`: drain the pending future,
acquire a frame (or sleep), then run the frame stage; publications are
emitted in source order. -/
def pipelineStep (cfg : PipeConfig) (s : PipelineState) (inp : IterInput) :
    StepOut :=
  match inp.frame with
  | none => ⟨(drainPhase s inp).1, (drainPhase s inp).2, 0⟩
  | some _ =>
    ⟨(frameStage cfg (drainPhase s inp).1 inp).state,
     (drainPhase s inp).2 ++ (frameStage cfg (drainPhase s inp).1 inp).published,
     (frameStage cfg (drainPhase s inp).1 inp).dispatched⟩

/-!  Theorems. -/

/-- Iterated `record_failure` with the given clock readings. -/
def failMany (b : CircuitBreaker) (ts : List ℚ) : CircuitBreaker :=
  ts.foldl CircuitBreaker.record_failure b

lemma failMany_eq (ts : List ℚ) : ∀ b : CircuitBreaker,
    failMany b ts =
      { b with consecutiveFailures := b.consecutiveFailures + ts.length
               lastFailureTime := ts.getLastD b.lastFailureTime } := by
  induction ts with
  | nil => intro b; rfl
  | cons t ts ih =>
    intro b
    show failMany (b.record_failure t) ts = _
    rw [ih]
    simp only [CircuitBreaker.record_failure, List.length_cons,
      List.getLastD_cons]
    congr 1
    omega

/-- C5: after exactly `failure_threshold` consecutive `record_failure`
calls from a zeroed counter, `is_open()` is true while the cooldown has
not yet elapsed since the last failure; once the cooldown has elapsed
since the last failure `is_open()` is false; and a single
`record_success` resets the consecutive-failure counter to 0. -/
theorem breaker_state_machine :
    (∀ (b : CircuitBreaker) (ts : List ℚ) (now : ℚ),
       b.consecutiveFailures = 0 → 0 < b.failureThreshold →
       ts.length = b.failureThreshold →
       now - ts.getLastD b.lastFailureTime < b.cooldownSec →
       (failMany b ts).is_open now = true)
    ∧ (∀ (b : CircuitBreaker) (now : ℚ),
       b.cooldownSec ≤ now - b.lastFailureTime → b.is_open now = false)
    ∧ (∀ b : CircuitBreaker, b.record_success.consecutiveFailures = 0) := by
  refine ⟨?_, ?_, ?_⟩
  · intro b ts now h0 hpos hlen hcool
    rw [failMany_eq]
    simp only [CircuitBreaker.is_open, h0, Nat.zero_add, hlen,
      lt_self_iff_false, if_false, decide_eq_true_eq]
    exact hcool
  · intro b now h
    simp [CircuitBreaker.is_open]
    intro _
    linarith
  · intro b
    rfl

/-- Witness for C5 at concrete inputs. -/
theorem breaker_state_machine_witness :
    (failMany (CircuitBreaker.init 2 5) [1, 2]).is_open 3 = true ∧
    (CircuitBreaker.is_open ⟨2, 5, 2, 2⟩ 7 = false) ∧
    (CircuitBreaker.record_success ⟨2, 5, 2, 2⟩).consecutiveFailures = 0 := by
  refine ⟨?_, ?_, ?_⟩
  · exact breaker_state_machine.1 (CircuitBreaker.init 2 5) [1, 2] 3
      (by decide) (by decide) (by decide) (by norm_num [CircuitBreaker.init])
  · exact breaker_state_machine.2.1 ⟨2, 5, 2, 2⟩ 7 (by norm_num)
  · exact breaker_state_machine.2.2 ⟨2, 5, 2, 2⟩

/-- C8: the pending-command slot is take-once-clears-to-empty — a write
followed by one read-and-clear returns the written command (with its
stripped content); after the clear the slot is empty, and any read of an
empty slot returns empty and leaves the slot empty; a second write
before any read overwrites the first, which is then never delivered. -/
theorem pending_command_slot_take_once :
    (∀ (s : SlotState) (cmd content : String),
       ((s.set_pending_user_command cmd content).get_and_clear_pending_command).1
         = (some cmd, pyStrip content))
    ∧ (∀ (s : SlotState) (cmd content : String),
       (((s.set_pending_user_command cmd
           content).get_and_clear_pending_command).2.get_and_clear_pending_command).1
         = (none, ""))
    ∧ (∀ s : SlotState, s.pendingCommand = none → s.contentForCommand = "" →
       (s.get_and_clear_pending_command).1 = (none, "") ∧
       (s.get_and_clear_pending_command).2 = s)
    ∧ (∀ (s : SlotState) (cmd1 content1 cmd2 content2 : String),
       (((s.set_pending_user_command cmd1 content1).set_pending_user_command
           cmd2 content2).get_and_clear_pending_command).1
         = (some cmd2, pyStrip content2)) := by
  refine ⟨fun s cmd content => rfl, fun s cmd content => rfl, ?_, ?_⟩
  · intro s h1 h2
    refine ⟨?_, ?_⟩
    · simp [SlotState.get_and_clear_pending_command, h1, h2]
    · simp [SlotState.get_and_clear_pending_command, ← h1, ← h2]
  · intro s cmd1 content1 cmd2 content2
    rfl

/-- Witness for C8 at concrete inputs. -/
theorem pending_command_slot_take_once_witness :
    ((SlotState.init.set_pending_user_command "read"
        " bonjour ").get_and_clear_pending_command).1 = (some "read", "bonjour")
    ∧ ((SlotState.init.get_and_clear_pending_command).1 = (none, "") ∧
       (SlotState.init.get_and_clear_pending_command).2 = SlotState.init) := by
  exact ⟨pending_command_slot_take_once.1 SlotState.init "read" " bonjour ",
    pending_command_slot_take_once.2.2.1 SlotState.init rfl rfl⟩

/-- C9: for every input that is empty or whitespace-only,
`correct_with_llm` returns success with the input itself as corrected
text and `time_ms = 0`, making no backend call at all (for any oracle
environment). -/
theorem correct_with_llm_blank_input (cfg : LLMCorrCfg) (env : LLMEnv)
    (rawText : String) (h : pyStrip rawText = "") :
    correct_with_llm cfg env rawText =
      ({ correctedText := rawText, success := true, timeMs := 0 }, 0) := by
  simp [correct_with_llm, h]

/-- Witness for C9 on a whitespace-only input. -/
theorem correct_with_llm_blank_input_witness :
    correct_with_llm ⟨800, 2⟩
        ⟨none, fun _ => CallOutcome.parseFailed, 37⟩ "  " =
      ({ correctedText := "  ", success := true, timeMs := 0 }, 0) :=
  correct_with_llm_blank_input ⟨800, 2⟩
    ⟨none, fun _ => CallOutcome.parseFailed, 37⟩ "  " (by decide)

/-!  Voting-window lemmas. -/

lemma getLastD_mem {α : Type _} : ∀ (l : List α) (d : α), l ≠ [] →
    l.getLastD d ∈ l := by
  intro l
  induction l with
  | nil => intro d h; exact absurd rfl h
  | cons x xs ih =>
    intro d _
    cases hxs : xs with
    | nil => simp [List.getLastD]
    | cons y ys =>
      rw [List.getLastD_cons]
      subst hxs
      exact List.mem_cons_of_mem x (ih x (by simp))

lemma mostCommonAux_step_none (q : List String) (x : String)
    (xs : List String) :
    mostCommonAux q (x :: xs) none =
      mostCommonAux q xs (some (x, countOcc q x)) := rfl

lemma mostCommonAux_step_some (q : List String) (x : String)
    (xs : List String) (v0 : String) (c0 : Nat) :
    mostCommonAux q (x :: xs) (some (v0, c0)) =
      if c0 < countOcc q x then mostCommonAux q xs (some (x, countOcc q x))
      else mostCommonAux q xs (some (v0, c0)) := rfl

lemma mostCommonAux_some (q : List String) : ∀ (rest : List String)
    (v0 : String) (c0 : Nat), v0 ∈ q → c0 = countOcc q v0 →
    (∀ x ∈ rest, x ∈ q) →
    ∃ v c, mostCommonAux q rest (some (v0, c0)) = some (v, c) ∧
      v ∈ q ∧ c = countOcc q v ∧ c0 ≤ c ∧ ∀ x ∈ rest, countOcc q x ≤ c := by
  intro rest
  induction rest with
  | nil =>
    intro v0 c0 hv0 hc0 _
    exact ⟨v0, c0, rfl, hv0, hc0, le_refl _, by simp⟩
  | cons x xs ih =>
    intro v0 c0 hv0 hc0 hrest
    have hxq : x ∈ q := hrest x (by simp)
    have hxsq : ∀ y ∈ xs, y ∈ q := fun y hy =>
      hrest y (List.mem_cons_of_mem x hy)
    rw [mostCommonAux_step_some]
    by_cases hlt : c0 < countOcc q x
    · rw [if_pos hlt]
      obtain ⟨v, c, heq, hv, hc, hle, hbound⟩ := ih x (countOcc q x) hxq rfl hxsq
      refine ⟨v, c, heq, hv, hc, le_trans (le_of_lt hlt) hle, ?_⟩
      intro y hy
      rcases List.mem_cons.mp hy with rfl | hy'
      · exact hle
      · exact hbound y hy'
    · rw [if_neg hlt]
      obtain ⟨v, c, heq, hv, hc, hle, hbound⟩ := ih v0 c0 hv0 hc0 hxsq
      refine ⟨v, c, heq, hv, hc, hle, ?_⟩
      intro y hy
      rcases List.mem_cons.mp hy with rfl | hy'
      · exact le_trans (le_of_not_lt hlt) hle
      · exact hbound y hy'

lemma mostCommon1_spec (q : List String) (hq : q ≠ []) :
    ∃ v c, mostCommon1 q = some (v, c) ∧ v ∈ q ∧ c = countOcc q v ∧
      ∀ x ∈ q, countOcc q x ≤ c := by
  cases q with
  | nil => exact absurd rfl hq
  | cons a l =>
    have step : mostCommon1 (a :: l) =
        mostCommonAux (a :: l) l (some (a, countOcc (a :: l) a)) := rfl
    obtain ⟨v, c, heq, hv, hc, hle, hbound⟩ :=
      mostCommonAux_some (a :: l) l a (countOcc (a :: l) a) (by simp) rfl
        (fun y hy => List.mem_cons_of_mem a hy)
    refine ⟨v, c, by rw [step, heq], hv, hc, ?_⟩
    intro x hx
    rcases List.mem_cons.mp hx with rfl | hx'
    · exact hle
    · exact hbound x hx'

lemma simBestAux_step (thr : ℚ) (mv : Nat) (q : List String) (c : String)
    (rest seen : List String) (bc : Nat) (best : Option String) :
    simBestAux thr mv q (c :: rest) seen bc best =
      if c ∈ seen then simBestAux thr mv q rest seen bc best
      else if mv ≤ clusterCount thr q c ∧ bc < clusterCount thr q c then
        simBestAux thr mv q rest (c :: seen) (clusterCount thr q c) (some c)
      else simBestAux thr mv q rest (c :: seen) bc best := rfl

lemma simBestAux_none (thr : ℚ) (mv : Nat) (q : List String) :
    ∀ (rest seen : List String) (bc : Nat),
      (∀ x ∈ rest, clusterCount thr q x < mv) →
      simBestAux thr mv q rest seen bc none = none := by
  intro rest
  induction rest with
  | nil => intro seen bc _; rfl
  | cons c cs ih =>
    intro seen bc hall
    have hc : clusterCount thr q c < mv := hall c (by simp)
    have hcs : ∀ x ∈ cs, clusterCount thr q x < mv := fun x hx =>
      hall x (List.mem_cons_of_mem c hx)
    rw [simBestAux_step]
    by_cases hseen : c ∈ seen
    · rw [if_pos hseen]; exact ih seen bc hcs
    · rw [if_neg hseen,
        if_neg (fun h => absurd h.1 (not_le.mpr hc))]
      exact ih (c :: seen) bc hcs

lemma simBestAux_some_mem (thr : ℚ) (mv : Nat) (q : List String) :
    ∀ (rest seen : List String) (bc : Nat) (best : Option String) (v : String),
      simBestAux thr mv q rest seen bc best = some v →
      best = some v ∨ v ∈ rest := by
  intro rest
  induction rest with
  | nil => intro seen bc best v h; exact Or.inl h
  | cons c cs ih =>
    intro seen bc best v h
    rw [simBestAux_step] at h
    by_cases hseen : c ∈ seen
    · rw [if_pos hseen] at h
      rcases ih seen bc best v h with h' | h'
      · exact Or.inl h'
      · exact Or.inr (List.mem_cons_of_mem c h')
    · rw [if_neg hseen] at h
      by_cases hupd : mv ≤ clusterCount thr q c ∧ bc < clusterCount thr q c
      · rw [if_pos hupd] at h
        rcases ih (c :: seen) (clusterCount thr q c) (some c) v h with h' | h'
        · cases h'; exact Or.inr (by simp)
        · exact Or.inr (List.mem_cons_of_mem c h')
      · rw [if_neg hupd] at h
        rcases ih (c :: seen) bc best v h with h' | h'
        · exact Or.inl h'
        · exact Or.inr (List.mem_cons_of_mem c h')

lemma qIsEmpty_false {d : OCRDebouncer} (hne : d.q ≠ []) :
    ¬(d.q.isEmpty = true) := by
  cases hq : d.q with
  | nil => exact absurd hq hne
  | cons a l => simp

/-- C2 (amended): in exact-match mode, whenever some value meets the
quorum, `is_stable()` is true and `get_stable()` returns a value of
maximal multiplicity in the window, which itself meets the quorum. -/
theorem get_stable_quorum (d : OCRDebouncer) (hmode : d.similarityVote ≤ 0)
    (hmv : 1 ≤ d.minVotes) (hq : ∃ v, d.minVotes ≤ countOcc d.q v) :
    d.is_stable = true ∧ d.minVotes ≤ countOcc d.q d.get_stable ∧
      ∀ x, countOcc d.q x ≤ countOcc d.q d.get_stable := by
  obtain ⟨v, hv⟩ := hq
  have hvpos : 0 < countOcc d.q v := lt_of_lt_of_le hmv hv
  have hvmem : v ∈ d.q := by
    by_contra hmem
    rw [countOcc, List.count_eq_zero_of_not_mem hmem] at hvpos
    exact absurd hvpos (lt_irrefl 0)
  have hne : d.q ≠ [] := by
    intro h
    rw [h] at hvmem
    exact absurd hvmem (List.not_mem_nil v)
  obtain ⟨w, c, hw_eq, hwmem, hwc, hbound⟩ := mostCommon1_spec d.q hne
  have hcq : d.minVotes ≤ c := le_trans hv (hbound v hvmem)
  have hgs : d.get_stable = w := by
    unfold OCRDebouncer.get_stable
    rw [if_neg (qIsEmpty_false hne), if_pos hmode, hw_eq]
    exact if_pos hcq
  have his : d.is_stable = true := by
    unfold OCRDebouncer.is_stable
    rw [if_neg (qIsEmpty_false hne), if_pos hmode, hw_eq]
    exact decide_eq_true hcq
  refine ⟨his, ?_, ?_⟩
  · rw [hgs, ← hwc]; exact hcq
  · intro x
    rw [hgs, ← hwc]
    by_cases hx : x ∈ d.q
    · exact hbound x hx
    · rw [countOcc, List.count_eq_zero_of_not_mem hx]
      exact Nat.zero_le c

/-- Counterexample to C2 as stated: in the window
`["a", "a", "b", "b"]` with `min_votes = 2`, the value `"b"` meets the
quorum, yet `get_stable()` does not return it (it returns `"a"`, the
first-encountered value of maximal multiplicity). -/
theorem get_stable_quorum_counterexample :
    2 ≤ countOcc ["a", "a", "b", "b"] "b" ∧
      OCRDebouncer.get_stable ⟨4, 2, 0, ["a", "a", "b", "b"]⟩ ≠ "b" := by
  constructor
  · decide
  · decide

/-- Witness for the amended C2 at a concrete window. -/
theorem get_stable_quorum_witness :
    OCRDebouncer.is_stable ⟨3, 2, 0, ["a", "a", "b"]⟩ = true ∧
      2 ≤ countOcc ["a", "a", "b"]
        (OCRDebouncer.get_stable ⟨3, 2, 0, ["a", "a", "b"]⟩) := by
  have h := get_stable_quorum ⟨3, 2, 0, ["a", "a", "b"]⟩ (by decide) (by decide)
    ⟨"a", by decide⟩
  exact ⟨h.1, h.2.1⟩

/-- C7: on an empty window `get_stable()` is `""` and `is_stable()` is
false; on a nonempty window where no value (exact mode) or no
similarity cluster (similarity mode) reaches the quorum, `get_stable()`
returns the most recently added (normalized) element. -/
theorem get_stable_fallback :
    (∀ d : OCRDebouncer, d.q = [] → d.get_stable = "" ∧ d.is_stable = false)
    ∧ (∀ d : OCRDebouncer, d.q ≠ [] → d.similarityVote ≤ 0 →
       (∀ v ∈ d.q, countOcc d.q v < d.minVotes) →
       d.get_stable = d.q.getLastD "")
    ∧ (∀ d : OCRDebouncer, d.q ≠ [] → 0 < d.similarityVote →
       (∀ v ∈ d.q, clusterCount d.similarityVote d.q v < d.minVotes) →
       d.get_stable = d.q.getLastD "") := by
  refine ⟨?_, ?_, ?_⟩
  · intro d h
    constructor
    · unfold OCRDebouncer.get_stable
      rw [if_pos (by rw [h]; rfl)]
    · unfold OCRDebouncer.is_stable
      rw [if_pos (by rw [h]; rfl)]
  · intro d hne hmode hall
    obtain ⟨w, c, hw_eq, hwmem, hwc, _⟩ := mostCommon1_spec d.q hne
    have hclt : c < d.minVotes := by rw [hwc]; exact hall w hwmem
    unfold OCRDebouncer.get_stable
    rw [if_neg (qIsEmpty_false hne), if_pos hmode, hw_eq]
    exact if_neg (not_le.mpr hclt)
  · intro d hne hsv hall
    unfold OCRDebouncer.get_stable
    rw [if_neg (qIsEmpty_false hne), if_neg (not_le.mpr hsv)]
    rw [show simBest d.similarityVote d.minVotes d.q = none from
      simBestAux_none d.similarityVote d.minVotes d.q d.q [] 0 hall]

/-- Witness for C7 at concrete windows (empty window, exact-mode
fallback, similarity-mode fallback). -/
theorem get_stable_fallback_witness :
    (OCRDebouncer.get_stable ⟨3, 2, 0, []⟩ = "" ∧
       OCRDebouncer.is_stable ⟨3, 2, 0, []⟩ = false)
    ∧ OCRDebouncer.get_stable ⟨3, 2, 0, ["a", "b"]⟩ = ["a", "b"].getLastD ""
    ∧ OCRDebouncer.get_stable ⟨3, 3, 1, ["", ""]⟩ = ["", ""].getLastD "" := by
  refine ⟨?_, ?_, ?_⟩
  · exact get_stable_fallback.1 ⟨3, 2, 0, []⟩ rfl
  · exact get_stable_fallback.2.1 ⟨3, 2, 0, ["a", "b"]⟩ (by decide) (by decide)
      (by decide)
  · exact get_stable_fallback.2.2 ⟨3, 3, 1, ["", ""]⟩ (by decide) (by decide)
      (by decide)

/-!  C10: all-blank windows and soft stability. -/

lemma ts_both_empty (a b : String) (ha : normalize_for_vote a = "")
    (hb : normalize_for_vote b = "") : text_similarity a b = 1 := by
  simp [text_similarity, ha, hb]

lemma get_stable_all_empty (d : OCRDebouncer) (hne : d.q ≠ [])
    (hall : ∀ y ∈ d.q, y = "") :
    d.get_stable = "" := by
  have hlast : d.q.getLastD "" = "" := hall _ (getLastD_mem d.q "" hne)
  unfold OCRDebouncer.get_stable
  rw [if_neg (qIsEmpty_false hne)]
  by_cases hmode : d.similarityVote ≤ 0
  · rw [if_pos hmode]
    obtain ⟨v, c, hw_eq, hvmem, _, _⟩ := mostCommon1_spec d.q hne
    rw [hw_eq]
    show (if d.minVotes ≤ c then v else d.q.getLastD "") = ""
    by_cases hc : d.minVotes ≤ c
    · rw [if_pos hc]; exact hall v hvmem
    · rw [if_neg hc]; exact hlast
  · rw [if_neg hmode]
    cases hsb : simBest d.similarityVote d.minVotes d.q with
    | none => exact hlast
    | some v =>
      show v = ""
      rcases simBestAux_some_mem d.similarityVote d.minVotes d.q d.q [] 0
        none v hsb with h | h
      · cases h
      · exact hall v h

lemma foldl_add_fields (samples : List String) : ∀ d : OCRDebouncer,
    (samples.foldl OCRDebouncer.add d).historyLen = d.historyLen ∧
    (samples.foldl OCRDebouncer.add d).minVotes = d.minVotes ∧
    (samples.foldl OCRDebouncer.add d).similarityVote = d.similarityVote := by
  induction samples with
  | nil => intro d; exact ⟨rfl, rfl, rfl⟩
  | cons x xs ih =>
    intro d
    exact ih (d.add x)

lemma mem_add_q {d : OCRDebouncer} {x : String} {y : String}
    (hy : y ∈ (d.add x).q) : y ∈ d.q ∨ y = normalize_for_vote x := by
  have : y ∈ d.q ++ [normalize_for_vote x] :=
    List.mem_of_mem_drop hy
  rcases List.mem_append.mp this with h | h
  · exact Or.inl h
  · exact Or.inr (List.mem_singleton.mp h)

lemma foldl_add_all_empty (samples : List String) : ∀ d : OCRDebouncer,
    (∀ x ∈ samples, normalize_for_vote x = "") → (∀ y ∈ d.q, y = "") →
    ∀ y ∈ (samples.foldl OCRDebouncer.add d).q, y = "" := by
  induction samples with
  | nil => intro d _ hq; exact hq
  | cons x xs ih =>
    intro d hs hq
    refine ih (d.add x) (fun z hz => hs z (List.mem_cons_of_mem x hz)) ?_
    intro y hy
    rcases mem_add_q hy with h | h
    · exact hq y h
    · rw [h]; exact hs x (by simp)

lemma add_q_ne_nil (d : OCRDebouncer) (x : String) (hl : 1 ≤ d.historyLen) :
    (d.add x).q ≠ [] := by
  have hlen : (d.add x).q.length =
      (d.q.length + 1) - ((d.q.length + 1) - d.historyLen) := by
    show ((d.q ++ [normalize_for_vote x]).drop
      ((d.q ++ [normalize_for_vote x]).length - d.historyLen)).length = _
    rw [List.length_drop, List.length_append]
    rfl
  have hpos : 0 < (d.add x).q.length := by omega
  exact List.ne_nil_of_length_pos hpos

lemma foldl_add_ne_nil_aux : ∀ (samples : List String) (d : OCRDebouncer),
    1 ≤ d.historyLen → d.q ≠ [] → (samples.foldl OCRDebouncer.add d).q ≠ [] := by
  intro samples
  induction samples with
  | nil => intro d _ h; exact h
  | cons x xs ih =>
    intro d hl _
    exact ih (d.add x) hl (add_q_ne_nil d x hl)

lemma foldl_add_ne_nil (samples : List String) (hs : samples ≠ []) :
    ∀ d : OCRDebouncer, 1 ≤ d.historyLen →
    (samples.foldl OCRDebouncer.add d).q ≠ [] := by
  intro d hl
  cases samples with
  | nil => exact absurd rfl hs
  | cons x xs =>
    exact foldl_add_ne_nil_aux xs (d.add x) hl (add_q_ne_nil d x hl)

/-- C10: `text_similarity` is 1 when both sides normalize to empty and
0 when exactly one side does; consequently, for every nonempty sample
sequence whose elements all normalize to the empty string, the
debouncer built by adding them is soft-stable at every threshold
`t ≤ 1`. -/
theorem is_soft_stable_all_blank :
    (∀ a b : String, normalize_for_vote a = "" → normalize_for_vote b = "" →
       text_similarity a b = 1)
    ∧ (∀ a b : String, normalize_for_vote a = "" → normalize_for_vote b ≠ "" →
       text_similarity a b = 0)
    ∧ (∀ a b : String, normalize_for_vote a ≠ "" → normalize_for_vote b = "" →
       text_similarity a b = 0)
    ∧ (∀ (hl mv : Nat) (sv t : ℚ) (samples : List String), samples ≠ [] →
       (∀ x ∈ samples, normalize_for_vote x = "") → t ≤ 1 →
       ((samples.foldl OCRDebouncer.add
           (OCRDebouncer.init hl mv sv)).is_soft_stable t) = true) := by
  refine ⟨ts_both_empty, ?_, ?_, ?_⟩
  · intro a b ha hb
    simp [text_similarity, ha, hb]
  · intro a b ha hb
    simp [text_similarity, ha, hb]
  · intro hl mv sv t samples hs hblank ht
    have hne : (samples.foldl OCRDebouncer.add (OCRDebouncer.init hl mv sv)).q ≠ [] :=
      foldl_add_ne_nil samples hs _ (by
        show 1 ≤ (OCRDebouncer.init hl mv sv).historyLen
        exact le_max_left 1 hl)
    have hall : ∀ y ∈ (samples.foldl OCRDebouncer.add
        (OCRDebouncer.init hl mv sv)).q, y = "" :=
      foldl_add_all_empty samples _ hblank (by intro y hy; cases hy)
    have hgs := get_stable_all_empty _ hne hall
    have hlast : (samples.foldl OCRDebouncer.add
        (OCRDebouncer.init hl mv sv)).q.getLastD "" = "" :=
      hall _ (getLastD_mem _ "" hne)
    unfold OCRDebouncer.is_soft_stable
    rw [if_neg (qIsEmpty_false hne), hgs, hlast]
    rw [ts_both_empty "" "" rfl rfl]
    exact decide_eq_true ht

/-- Witness for C10 at a concrete blank sample sequence and threshold. -/
theorem is_soft_stable_all_blank_witness :
    text_similarity " " "" = 1 ∧
    ((([" ", "\t"]).foldl OCRDebouncer.add
        (OCRDebouncer.init 6 4 1)).is_soft_stable 1) = true := by
  constructor
  · exact is_soft_stable_all_blank.1 " " "" (by decide) (by decide)
  · exact is_soft_stable_all_blank.2.2.2 6 4 1 1 [" ", "\t"] (by decide)
      (by decide) (by norm_num)

/-!  Cache lemmas (C4). -/

lemma lookup_eq_none (X : List (String × CacheEntry)) (k : String)
    (h : ∀ p ∈ X, ¬(p.1 = k)) : lookupKey X k = none := by
  induction X with
  | nil => rfl
  | cons p X ih =>
    have hp : (p.1 == k) = false := by
      exact beq_false_of_ne (h p (by simp))
    simp only [lookupKey, List.find?]
    rw [hp]
    exact ih (fun p' hp' => h p' (List.mem_cons_of_mem p hp'))

lemma lookup_append_last (X : List (String × CacheEntry)) (k : String)
    (e : CacheEntry) (h : ∀ p ∈ X, ¬(p.1 = k)) :
    lookupKey (X ++ [(k, e)]) k = some e := by
  induction X with
  | nil => simp [lookupKey, List.find?]
  | cons p X ih =>
    have hp : (p.1 == k) = false := by
      exact beq_false_of_ne (h p (by simp))
    simp only [lookupKey, List.cons_append, List.find?]
    rw [hp]
    exact ih (fun p' hp' => h p' (List.mem_cons_of_mem p hp'))

lemma eraseKey_not_mem (data : List (String × CacheEntry)) (k : String) :
    ∀ p ∈ eraseKey data k, ¬(p.1 = k) := by
  intro p hp
  have := List.mem_filter.mp hp
  intro he
  rw [he] at this
  simp at this

lemma eraseKey_of_fresh (data : List (String × CacheEntry)) (k : String)
    (h : ∀ p ∈ data, ¬(p.1 = k)) : eraseKey data k = data := by
  apply List.filter_eq_self.mpr
  intro p hp
  exact bne_iff_ne.mpr (h p hp)

lemma get_of_data_last (c : LLMCache) (text : String) (lang : Option String)
    (X : List (String × CacheEntry)) (e : CacheEntry)
    (hdata : c.data = X ++ [(makeKey text lang, e)])
    (hX : ∀ p ∈ X, ¬(p.1 = makeKey text lang)) (t' : ℚ) :
    (c.get t' text lang).1 = if c.ttl < t' - e.ts then none else some e := by
  have hlook : lookupKey c.data (makeKey text lang) = some e := by
    rw [hdata]
    exact lookup_append_last X _ e hX
  simp only [LLMCache.get, hlook]
  split_ifs with h <;> rfl

lemma put_data_spec (c : LLMCache) (hcap : 1 ≤ c.maxSize) (text : String)
    (lang : Option String) (corr : String) (conf : Option ℚ)
    (lh : Option String) (ms t : ℚ) :
    ∃ X, (c.put t text lang corr conf lh ms).data =
        X ++ [(makeKey text lang, ⟨corr, conf, lh, ms, t⟩)] ∧
      ∀ p ∈ X, ¬(p.1 = makeKey text lang) := by
  refine ⟨(eraseKey c.data (makeKey text lang)).drop
    ((eraseKey c.data (makeKey text lang) ++
      [(makeKey text lang, (⟨corr, conf, lh, ms, t⟩ : CacheEntry))]).length -
      c.maxSize), ?_, ?_⟩
  · show (eraseKey c.data (makeKey text lang) ++
        [(makeKey text lang, (⟨corr, conf, lh, ms, t⟩ : CacheEntry))]).drop
        ((eraseKey c.data (makeKey text lang) ++
          [(makeKey text lang, (⟨corr, conf, lh, ms, t⟩ : CacheEntry))]).length -
          c.maxSize) = _
    apply List.drop_append_of_le_length
    rw [List.length_append]
    simp only [List.length_cons, List.length_nil]
    omega
  · intro p hp
    exact eraseKey_not_mem _ _ p (List.mem_of_mem_drop hp)

lemma put_get_roundtrip (c : LLMCache) (hcap : 1 ≤ c.maxSize)
    (text : String) (lang : Option String) (corr : String)
    (conf : Option ℚ) (lh : Option String) (ms t t' : ℚ) :
    ((c.put t text lang corr conf lh ms).get t' text lang).1 =
      if c.ttl < t' - t then none else some ⟨corr, conf, lh, ms, t⟩ := by
  obtain ⟨X, hdata, hX⟩ := put_data_spec c hcap text lang corr conf lh ms t
  exact get_of_data_last (c.put t text lang corr conf lh ms) text lang X
    ⟨corr, conf, lh, ms, t⟩ hdata hX t'

/-- One cache insertion request (the arguments of a `put` call, with
its clock reading). -/
structure PutReq where
  text : String
  lang : Option String
  corrected : String
  confidence : Option ℚ
  langHintOut : Option String
  ms : ℚ
  now : ℚ

/-- The cache key a request maps to. -/
def reqKey (r : PutReq) : String := makeKey r.text r.lang

/-- Fold a sequence of `put` calls over a cache. -/
def applyPuts (c : LLMCache) (rs : List PutReq) : LLMCache :=
  rs.foldl (fun c r =>
    c.put r.now r.text r.lang r.corrected r.confidence r.langHintOut r.ms) c

lemma applyPuts_keys : ∀ (rs : List PutReq) (done : List String) (c : LLMCache),
    1 ≤ c.maxSize →
    c.data.map Prod.fst = done.drop (done.length - c.maxSize) →
    (done ++ rs.map reqKey).Nodup →
    (applyPuts c rs).data.map Prod.fst =
      (done ++ rs.map reqKey).drop
        ((done ++ rs.map reqKey).length - c.maxSize) ∧
    (applyPuts c rs).maxSize = c.maxSize := by
  intro rs
  induction rs with
  | nil =>
    intro done c hcap hkeys _
    constructor
    · simpa using hkeys
    · rfl
  | cons r rs ih =>
    intro done c hcap hkeys hnodup
    have hnodup' : (done ++ reqKey r :: rs.map reqKey).Nodup := by
      simpa using hnodup
    have hkmem : reqKey r ∉ done := by
      rcases List.nodup_append.mp hnodup' with ⟨_, _, hdisj⟩
      intro hmem
      exact hdisj hmem (by simp)
    have hkdata : ∀ p ∈ c.data, ¬(p.1 = makeKey r.text r.lang) := by
      intro p hp he
      have h1 : p.1 ∈ c.data.map Prod.fst := List.mem_map_of_mem Prod.fst hp
      rw [hkeys] at h1
      have h2 : p.1 ∈ done := List.mem_of_mem_drop h1
      rw [he] at h2
      exact hkmem h2
    have herase : eraseKey c.data (makeKey r.text r.lang) = c.data :=
      eraseKey_of_fresh _ _ hkdata
    have hstep : (c.put r.now r.text r.lang r.corrected r.confidence
        r.langHintOut r.ms).data.map Prod.fst =
        (c.data.map Prod.fst ++ [reqKey r]).drop
          ((c.data.map Prod.fst ++ [reqKey r]).length - c.maxSize) := by
      simp only [LLMCache.put, herase]
      rw [List.map_drop, List.map_append]
      simp only [List.map_cons, List.map_nil, List.length_append,
        List.length_map, List.length_cons, List.length_nil]
      rfl
    have hd : done.length - c.maxSize ≤ done.length := Nat.sub_le _ _
    have hkeys' : (c.put r.now r.text r.lang r.corrected r.confidence
        r.langHintOut r.ms).data.map Prod.fst =
        (done ++ [reqKey r]).drop
          ((done ++ [reqKey r]).length - c.maxSize) := by
      rw [hstep, hkeys, ← List.drop_append_of_le_length hd, List.drop_drop,
        List.length_drop]
      congr 1
      rw [List.length_append]
      simp only [List.length_cons, List.length_nil]
      omega
    have hres := ih (done ++ [reqKey r])
      (c.put r.now r.text r.lang r.corrected r.confidence r.langHintOut r.ms)
      hcap hkeys' (by simpa [List.append_assoc] using hnodup')
    constructor
    · have h1 := hres.1
      simpa [applyPuts, List.append_assoc] using h1
    · exact hres.2

/-- C4: cache round-trip with TTL and LRU — after `put`, `get` of the
same text and language hint returns the stored entry while its age is
at most TTL; it reports absent once the age exceeds TTL (even though
the entry is the most recently used); and after inserting
`capacity + 1` requests with pairwise-distinct cache keys into an empty
cache, the first (least-recently-used) one has been evicted, so `get`
on it is absent. -/
theorem cache_ttl_lru :
    (∀ (c : LLMCache) (text : String) (lang : Option String) (corr : String)
       (conf : Option ℚ) (lh : Option String) (ms t t' : ℚ),
       1 ≤ c.maxSize → t' - t ≤ c.ttl →
       ((c.put t text lang corr conf lh ms).get t' text lang).1 =
         some ⟨corr, conf, lh, ms, t⟩)
    ∧ (∀ (c : LLMCache) (text : String) (lang : Option String) (corr : String)
       (conf : Option ℚ) (lh : Option String) (ms t t' : ℚ),
       1 ≤ c.maxSize → c.ttl < t' - t →
       ((c.put t text lang corr conf lh ms).get t' text lang).1 = none)
    ∧ (∀ (cap : Nat) (ttl now' : ℚ) (r0 : PutReq) (rest : List PutReq),
       1 ≤ cap → ((r0 :: rest).map reqKey).Nodup →
       (r0 :: rest).length = cap + 1 →
       ((applyPuts ⟨cap, ttl, []⟩ (r0 :: rest)).get now' r0.text r0.lang).1 =
         none) := by
  refine ⟨?_, ?_, ?_⟩
  · intro c text lang corr conf lh ms t t' hcap hfresh
    rw [put_get_roundtrip c hcap text lang corr conf lh ms t t']
    exact if_neg (not_lt.mpr hfresh)
  · intro c text lang corr conf lh ms t t' hcap hexp
    rw [put_get_roundtrip c hcap text lang corr conf lh ms t t']
    exact if_pos hexp
  · intro cap ttl now' r0 rest hcap hnodup hlen
    have hinv := applyPuts_keys (r0 :: rest) [] ⟨cap, ttl, []⟩ hcap (by simp)
      (by simpa using hnodup)
    have hKlen : ((r0 :: rest).map reqKey).length = cap + 1 := by
      rw [List.length_map]; exact hlen
    have hkeys2 : (applyPuts ⟨cap, ttl, []⟩ (r0 :: rest)).data.map Prod.fst
        = rest.map reqKey := by
      have h1 := hinv.1
      rw [List.nil_append] at h1
      rw [h1, hKlen]
      have h2 : cap + 1 - cap = 1 := by omega
      rw [h2]
      simp
    have hhead : reqKey r0 ∉ rest.map reqKey := by
      have h3 : (reqKey r0 :: rest.map reqKey).Nodup := by simpa using hnodup
      exact (List.nodup_cons.mp h3).1
    have hlook : lookupKey (applyPuts ⟨cap, ttl, []⟩ (r0 :: rest)).data
        (makeKey r0.text r0.lang) = none := by
      apply lookup_eq_none
      intro p hp he
      have h1 : p.1 ∈ (applyPuts ⟨cap, ttl, []⟩ (r0 :: rest)).data.map Prod.fst :=
        List.mem_map_of_mem Prod.fst hp
      rw [hkeys2, he] at h1
      exact hhead h1
    simp only [LLMCache.get, hlook]

/-- Witness for C4 at concrete caches and clock readings. -/
theorem cache_ttl_lru_witness :
    ((LLMCache.put ⟨2, 600, []⟩ 0 "k" none "v" none none 5).get 0 "k"
        none).1 = some ⟨"v", none, none, 5, 0⟩
    ∧ ((LLMCache.put ⟨2, 600, []⟩ 0 "k" none "v" none none 5).get 1000 "k"
        none).1 = none
    ∧ ((applyPuts ⟨1, 600, []⟩ [⟨"a", none, "A", none, none, 1, 0⟩,
        ⟨"b", none, "B", none, none, 1, 0⟩]).get 0 "a" none).1 = none := by
  refine ⟨?_, ?_, ?_⟩
  · exact cache_ttl_lru.1 ⟨2, 600, []⟩ "k" none "v" none none 5 0 0
      (by decide) (by norm_num)
  · exact cache_ttl_lru.2.1 ⟨2, 600, []⟩ "k" none "v" none none 5 0 1000
      (by decide) (by norm_num)
  · exact cache_ttl_lru.2.2 1 600 0 ⟨"a", none, "A", none, none, 1, 0⟩
      [⟨"b", none, "B", none, none, 1, 0⟩] (by decide) (by decide) (by decide)

/-!  Pipeline-step lemmas (C1, C3, C6). -/

lemma drainPhase_of_not_done (s : PipelineState) (inp : IterInput)
    (p : PendingInfo) (hp : s.pending = some p)
    (hd : inp.pendingDone = false) : drainPhase s inp = (s, []) := by
  simp [drainPhase, hp, hd]

lemma drainPhase_pending (s : PipelineState) (inp : IterInput) :
    (drainPhase s inp).1.pending = s.pending ∨
    (drainPhase s inp).1.pending = none := by
  unfold drainPhase
  split
  · exact Or.inl rfl
  · split
    · exact Or.inl rfl
    · exact Or.inr rfl

lemma gateStage_spec (s : PipelineState) (now : ℚ) (st dr : String)
    (conf ocrMs : ℚ) (em : Option String) :
    ((gateStage s now st dr conf ocrMs em).dispatched = 0 ∧
     (gateStage s now st dr conf ocrMs em).state.pending = s.pending) ∨
    ((gateStage s now st dr conf ocrMs em).dispatched = 1 ∧
     s.pending = none) := by
  unfold gateStage
  split
  · exact Or.inl ⟨rfl, rfl⟩
  · split
    · exact Or.inl ⟨rfl, rfl⟩
    · split
      · exact Or.inl ⟨rfl, rfl⟩
      · rename_i h3
        exact Or.inr ⟨rfl, Option.not_isSome_iff_eq_none.mp (by simpa using h3)⟩

lemma correctionStage_spec (s : PipelineState) (now : ℚ) (st dr : String)
    (conf ocrMs : ℚ) (em : Option String) :
    ((correctionStage s now st dr conf ocrMs em).dispatched = 0 ∧
     (correctionStage s now st dr conf ocrMs em).state.pending = s.pending) ∨
    ((correctionStage s now st dr conf ocrMs em).dispatched = 1 ∧
     s.pending = none) := by
  unfold correctionStage
  split
  · exact Or.inl ⟨rfl, rfl⟩
  · split
    · exact Or.inl ⟨rfl, rfl⟩
    · rcases gateStage_spec
        { s with cache := (s.cache.get now st s.lastLlmLangHint).2 }
        now st dr conf ocrMs em with ⟨h1, h2⟩ | ⟨h1, h2⟩
      · exact Or.inl ⟨h1, h2⟩
      · exact Or.inr ⟨h1, h2⟩


lemma frameStage_spec (cfg : PipeConfig) (s1 : PipelineState)
    (inp : IterInput) :
    ((frameStage cfg s1 inp).dispatched = 0 ∧
     (frameStage cfg s1 inp).state.pending = s1.pending) ∨
    ((frameStage cfg s1 inp).dispatched = 1 ∧ s1.pending = none) := by
  unfold frameStage
  split
  · exact Or.inl ⟨rfl, rfl⟩
  · split
    · exact Or.inl ⟨rfl, rfl⟩
    · rcases correctionStage_spec (voteState s1 inp) inp.now (stableOf s1 inp)
        (displayRawOf s1 inp) inp.ocrConf inp.ocrMs inp.ocrErr with
        ⟨h1, h2⟩ | ⟨h1, h2⟩
      · exact Or.inl ⟨h1, h2⟩
      · exact Or.inr ⟨h1, h2⟩

lemma pipelineStep_spec (cfg : PipeConfig) (s : PipelineState)
    (inp : IterInput) :
    ((pipelineStep cfg s inp).dispatched = 0 ∧
     (pipelineStep cfg s inp).state.pending = (drainPhase s inp).1.pending) ∨
    ((pipelineStep cfg s inp).dispatched = 1 ∧
     (drainPhase s inp).1.pending = none) := by
  unfold pipelineStep
  split
  · exact Or.inl ⟨rfl, rfl⟩
  · rcases frameStage_spec cfg (drainPhase s inp).1 inp with ⟨h1, h2⟩ | ⟨h1, h2⟩
    · exact Or.inl ⟨h1, h2⟩
    · exact Or.inr ⟨h1, h2⟩

/-- C1: one pipeline iteration dispatches at most one correction call;
it dispatches only when no previously dispatched correction future is
still pending (the slot is empty or its future has resolved); and while
a pending future is unresolved the iteration dispatches nothing and
leaves that future in place — so the loop never creates a second
in-flight correction backend call. -/
theorem single_inflight_correction (cfg : PipeConfig) (s : PipelineState)
    (inp : IterInput) :
    (pipelineStep cfg s inp).dispatched ≤ 1 ∧
    ((pipelineStep cfg s inp).dispatched = 1 →
      (s.pending = none ∨ inp.pendingDone = true)) ∧
    (∀ p, s.pending = some p → inp.pendingDone = false →
      (pipelineStep cfg s inp).dispatched = 0 ∧
      (pipelineStep cfg s inp).state.pending = some p) := by
  rcases pipelineStep_spec cfg s inp with ⟨h1, h2⟩ | ⟨h1, h2⟩
  · refine ⟨by rw [h1]; exact Nat.zero_le 1, ?_, ?_⟩
    · intro hd1
      rw [h1] at hd1
      cases hd1
    · intro p hp hd
      refine ⟨h1, ?_⟩
      rw [h2, drainPhase_of_not_done s inp p hp hd]
      exact hp
  · refine ⟨le_of_eq h1, ?_, ?_⟩
    · intro _
      by_cases hd : inp.pendingDone = true
      · exact Or.inr hd
      · left
        cases hp : s.pending with
        | none => rfl
        | some p =>
          have hdr := drainPhase_of_not_done s inp p hp
            (Bool.not_eq_true _ ▸ hd)
          rw [hdr, hp] at h2
          cases h2
    · intro p hp hd
      have hdr := drainPhase_of_not_done s inp p hp hd
      rw [hdr, hp] at h2
      cases h2

/-- Witness for C1: with a pending, unresolved correction future, the
iteration dispatches nothing and keeps the future. -/
theorem single_inflight_correction_witness :
    (pipelineStep ⟨false, 1⟩
        ⟨none, none, none, some ⟨"x", 0, 0, "x", none⟩, ⟨3, 30, 0, 0⟩,
         ⟨6, 4, 0, []⟩, ⟨200, 600, []⟩, ⟨1000, 0⟩⟩
        ⟨false, Except.error "e", none, "", 0, 0, true, none, 0⟩).dispatched
      = 0 ∧
    (pipelineStep ⟨false, 1⟩
        ⟨none, none, none, some ⟨"x", 0, 0, "x", none⟩, ⟨3, 30, 0, 0⟩,
         ⟨6, 4, 0, []⟩, ⟨200, 600, []⟩, ⟨1000, 0⟩⟩
        ⟨false, Except.error "e", none, "", 0, 0, true, none, 0⟩).state.pending
      = some ⟨"x", 0, 0, "x", none⟩ :=
  (single_inflight_correction ⟨false, 1⟩
      ⟨none, none, none, some ⟨"x", 0, 0, "x", none⟩, ⟨3, 30, 0, 0⟩,
       ⟨6, 4, 0, []⟩, ⟨200, 600, []⟩, ⟨1000, 0⟩⟩
      ⟨false, Except.error "e", none, "", 0, 0, true, none, 0⟩).2.2
    ⟨"x", 0, 0, "x", none⟩ rfl rfl

/-- C3 (amended): within one iteration the correction stage consults
the cache *before* the last-sent dedup check — on a cache hit the
cached correction is republished with no dispatch, and only on a cache
miss is a stable text equal to the last-sent one answered from the
remembered previous correction. -/
theorem cache_checked_before_dedup (s : PipelineState) (now : ℚ)
    (st dr : String) (conf ocrMs : ℚ) (em : Option String) :
    (∀ e, (s.cache.get now st s.lastLlmLangHint).1 = some e →
       (correctionStage s now st dr conf ocrMs em).published =
         [⟨dr, e.corrected, conf, ocrMs, e.llmMs, true, true, em, st⟩] ∧
       (correctionStage s now st dr conf ocrMs em).dispatched = 0)
    ∧ ((s.cache.get now st s.lastLlmLangHint).1 = none →
       s.lastSentText = some st → ∀ c, s.lastCorrected = some c →
       (correctionStage s now st dr conf ocrMs em).published =
         [⟨dr, c, conf, ocrMs, 0, true, true, none, st⟩] ∧
       (correctionStage s now st dr conf ocrMs em).dispatched = 0) := by
  constructor
  · intro e he
    simp [correctionStage, he]
  · intro hn hsent c hcorr
    simp only [correctionStage, hn]
    rw [if_pos ⟨hsent, by rw [hcorr]; rfl⟩]
    constructor
    · simp [hcorr]
    · rfl

/-- Witness for the amended C3: on a cache miss with the stable text
equal to the last-sent one, the remembered previous correction is
republished. -/
theorem cache_checked_before_dedup_witness :
    (correctionStage
        ⟨none, some "hi", some "PREV", none, ⟨3, 30, 0, 0⟩,
         ⟨3, 2, 0, ["hi"]⟩, ⟨200, 600, []⟩, ⟨0, 0⟩⟩
        0 "hi" "hi" 1 5 none).published =
      [⟨"hi", "PREV", 1, 5, 0, true, true, none, "hi"⟩] ∧
    (correctionStage
        ⟨none, some "hi", some "PREV", none, ⟨3, 30, 0, 0⟩,
         ⟨3, 2, 0, ["hi"]⟩, ⟨200, 600, []⟩, ⟨0, 0⟩⟩
        0 "hi" "hi" 1 5 none).dispatched = 0 :=
  (cache_checked_before_dedup
      ⟨none, some "hi", some "PREV", none, ⟨3, 30, 0, 0⟩,
       ⟨3, 2, 0, ["hi"]⟩, ⟨200, 600, []⟩, ⟨0, 0⟩⟩
      0 "hi" "hi" 1 5 none).2 rfl rfl "PREV" rfl

/-- Concrete state refuting C3 as stated: the stable text equals the
last-sent text, a previous corrected result is remembered, yet a valid
cache entry exists and the iteration republishes the cache entry
(`"CACHED"`), not the remembered previous result (`"PREV"`). -/
def c3State : PipelineState :=
  ⟨none, some "hi", some "PREV", none, ⟨3, 30, 0, 0⟩, ⟨3, 2, 0, ["hi"]⟩,
   ⟨200, 600, [("hi||auto", ⟨"CACHED", none, none, 5, 0⟩)]⟩, ⟨0, 0⟩⟩

/-- The iteration input driving `c3State` through the correction
stage. -/
def c3Input : IterInput :=
  ⟨false, Except.error "e", some (), "hi", 1, 5, true, none, 0⟩

/-- Counterexample to C3 as stated: with the stable text equal to the
last-sent text and a remembered previous correction available, the
iteration publishes the cached correction, not the previous one —
because the source checks the cache before the dedup check. -/
theorem dedup_before_cache_counterexample :
    (pipelineStep ⟨false, 1⟩ c3State c3Input).published =
      [⟨"hi", "CACHED", 1, 5, 5, true, true, none, "hi"⟩] ∧
    c3State.lastSentText = some "hi" ∧ c3State.lastCorrected = some "PREV" ∧
    ("CACHED" : String) ≠ "PREV" := by
  have hstable : stableOf c3State c3Input = "hi" := by decide
  have hsoft : softOf ⟨false, 1⟩ c3State c3Input = true := by decide
  have hdisp : displayRawOf c3State c3Input = "hi" := by decide
  refine ⟨?_, rfl, rfl, by decide⟩
  show (frameStage ⟨false, 1⟩ c3State c3Input).published = _
  unfold frameStage
  rw [if_neg (by decide)]
  rw [hstable, hsoft, hdisp]
  rw [if_neg (by decide)]
  have hlook : lookupKey (voteState c3State c3Input).cache.data
      (makeKey "hi" (voteState c3State c3Input).lastLlmLangHint) =
      some ⟨"CACHED", none, none, 5, 0⟩ := by decide
  have hget : ((voteState c3State c3Input).cache.get c3Input.now "hi"
      (voteState c3State c3Input).lastLlmLangHint).1 =
      some ⟨"CACHED", none, none, 5, 0⟩ := by
    simp only [LLMCache.get, hlook]
    rw [if_neg (by norm_num [voteState, c3State, c3Input])]
  simp only [correctionStage, hget]
  decide

/-- C6: when the iteration reaches the gate (a frame was acquired, OCR
succeeded, the stable text is nonempty and soft-stable, the cache
missed and the dedup check does not apply) and the breaker is open, no
correction call is dispatched and the published result carries the
uncorrected stable text, `llm_ok = false`, and the distinguishable
breaker-open error tag. -/
theorem breaker_open_degrades (cfg : PipeConfig) (s : PipelineState)
    (inp : IterInput) (u : Unit) (hframe : inp.frame = some u)
    (hocr : inp.ocrOk = true)
    (hstable : ¬(pyStrip (stableOf (drainPhase s inp).1 inp) = ""))
    (hsoft : softOf cfg (drainPhase s inp).1 inp = true)
    (hmiss : ((voteState (drainPhase s inp).1 inp).cache.get inp.now
        (stableOf (drainPhase s inp).1 inp)
        (voteState (drainPhase s inp).1 inp).lastLlmLangHint).1 = none)
    (hdedup : ¬((voteState (drainPhase s inp).1 inp).lastSentText =
        some (stableOf (drainPhase s inp).1 inp) ∧
        (voteState (drainPhase s inp).1 inp).lastCorrected.isSome))
    (hopen : (voteState (drainPhase s inp).1 inp).breaker.is_open inp.now
        = true) :
    (pipelineStep cfg s inp).dispatched = 0 ∧
    (pipelineStep cfg s inp).published = (drainPhase s inp).2 ++
      [⟨displayRawOf (drainPhase s inp).1 inp,
        stableOf (drainPhase s inp).1 inp, inp.ocrConf, inp.ocrMs, 0, true,
        false, some "LLM熔断中(降级返回原文)",
        stableOf (drainPhase s inp).1 inp⟩] := by
  have hfs : (frameStage cfg (drainPhase s inp).1 inp).dispatched = 0 ∧
      (frameStage cfg (drainPhase s inp).1 inp).published =
      [⟨displayRawOf (drainPhase s inp).1 inp,
        stableOf (drainPhase s inp).1 inp, inp.ocrConf, inp.ocrMs, 0, true,
        false, some "LLM熔断中(降级返回原文)",
        stableOf (drainPhase s inp).1 inp⟩] := by
    unfold frameStage
    rw [if_neg (by simp [hocr])]
    rw [if_neg (by simp [hstable, hsoft])]
    simp only [correctionStage, hmiss]
    rw [if_neg hdedup]
    unfold gateStage
    rw [if_pos hopen]
    exact ⟨rfl, rfl⟩
  simp only [pipelineStep, hframe]
  exact ⟨hfs.1, by rw [hfs.2]⟩

/-- Witness for C6: a concrete iteration hitting an open breaker
publishes the degraded pass-through result and dispatches nothing. -/
theorem breaker_open_degrades_witness :
    (pipelineStep ⟨false, 1⟩
        ⟨none, none, none, none, ⟨1, 10, 1, 0⟩, ⟨3, 2, 0, ["hi"]⟩,
         ⟨200, 600, []⟩, ⟨0, 0⟩⟩
        ⟨false, Except.error "e", some (), "hi", 1, 5, true, none,
         0⟩).dispatched = 0 ∧
    (pipelineStep ⟨false, 1⟩
        ⟨none, none, none, none, ⟨1, 10, 1, 0⟩, ⟨3, 2, 0, ["hi"]⟩,
         ⟨200, 600, []⟩, ⟨0, 0⟩⟩
        ⟨false, Except.error "e", some (), "hi", 1, 5, true, none,
         0⟩).published =
      (drainPhase
        ⟨none, none, none, none, ⟨1, 10, 1, 0⟩, ⟨3, 2, 0, ["hi"]⟩,
         ⟨200, 600, []⟩, ⟨0, 0⟩⟩
        ⟨false, Except.error "e", some (), "hi", 1, 5, true, none, 0⟩).2 ++
      [⟨displayRawOf (drainPhase
          ⟨none, none, none, none, ⟨1, 10, 1, 0⟩, ⟨3, 2, 0, ["hi"]⟩,
           ⟨200, 600, []⟩, ⟨0, 0⟩⟩
          ⟨false, Except.error "e", some (), "hi", 1, 5, true, none, 0⟩).1
          ⟨false, Except.error "e", some (), "hi", 1, 5, true, none, 0⟩,
        stableOf (drainPhase
          ⟨none, none, none, none, ⟨1, 10, 1, 0⟩, ⟨3, 2, 0, ["hi"]⟩,
           ⟨200, 600, []⟩, ⟨0, 0⟩⟩
          ⟨false, Except.error "e", some (), "hi", 1, 5, true, none, 0⟩).1
          ⟨false, Except.error "e", some (), "hi", 1, 5, true, none, 0⟩,
        1, 5, 0, true, false, some "LLM熔断中(降级返回原文)",
        stableOf (drainPhase
          ⟨none, none, none, none, ⟨1, 10, 1, 0⟩, ⟨3, 2, 0, ["hi"]⟩,
           ⟨200, 600, []⟩, ⟨0, 0⟩⟩
          ⟨false, Except.error "e", some (), "hi", 1, 5, true, none, 0⟩).1
          ⟨false, Except.error "e", some (), "hi", 1, 5, true, none, 0⟩⟩] :=
  breaker_open_degrades ⟨false, 1⟩
    ⟨none, none, none, none, ⟨1, 10, 1, 0⟩, ⟨3, 2, 0, ["hi"]⟩,
     ⟨200, 600, []⟩, ⟨0, 0⟩⟩
    ⟨false, Except.error "e", some (), "hi", 1, 5, true, none, 0⟩ ()
    rfl rfl (by decide) (by decide) (by decide) (by decide)
    (by norm_num [voteState, drainPhase, CircuitBreaker.is_open])
